import Mathlib

/-!
Shallow embedding of the AdaWongBLDM image-preparation scripts
(`src/tools/expand.py`, `src/tools/crop.py`, `src/tools/process_allinone.py`,
`src/tools/mask_and_label.py`).

Images are H×W×3 uint8 numpy arrays in the source; here a grid is a pair of
dimensions together with a total pixel function (out-of-bounds values are
irrelevant: every operation either stays in bounds or defines the value it
writes).  Randomness (`random.randint(a, b)`) is modelled by passing the drawn
value explicitly, or by an abstract generator `rng : Nat → Nat → Nat` together
with the hypothesis `RngValid rng` stating that a draw from a non-empty range
`[lo, hi]` lands in that range.  `random.randint(0, n)` with `n < 0` raises
`ValueError` in Python; the corresponding branch returns `.error`.
File I/O is abstracted: a file read yields `Option Img` (`none` = unreadable),
a file write is recorded in an output list.
-/

/-- One 3-channel pixel (R, G, B), each channel a `uint8` value. -/
abbrev Pixel := Nat × Nat × Nat

/-- The defect-sentinel colour used by the crop acceptance test. -/
def white : Pixel := (255, 255, 255)

/-- The padding-sentinel colour used by the expansion fill. -/
def gray : Pixel := (127, 127, 127)

/-- Pure black, the colour `convert_to_gray_white` remaps. -/
def black : Pixel := (0, 0, 0)

/-- An H×W×3 image: height, width, and the pixel at (row, col). -/
@[ext] structure Img where
  h : Nat
  w : Nat
  pix : Nat → Nat → Pixel

/-- An abstract model of `random.randint`: `rng lo hi` is the value drawn for a
call `random.randint(lo, hi)`.  `RngValid` states the guarantee Python gives on
a non-empty range. -/
def RngValid (rng : Nat → Nat → Nat) : Prop :=
  ∀ lo hi : Nat, lo ≤ hi → lo ≤ rng lo hi ∧ rng lo hi ≤ hi

/-- The numpy slice `img[y : y + cs, x : x + cs]`, as used by both
`crop.py` (lines 58–60) and `process_allinone.py` (lines 88–89). -/
def cropAt (img : Img) (cs x y : Nat) : Img :=
  { h := cs, w := cs, pix := fun i j => img.pix (y + i) (x + j) }

/-- `np.sum(np.all(mask == [255,255,255], axis=-1))`: the number of in-bounds
pixels of `m` equal to the white sentinel (`crop.py` lines 65–68,
`process_allinone.py` lines 92–94). -/
def defectCount (m : Img) : Nat :=
  ∑ i ∈ Finset.range m.h, ∑ j ∈ Finset.range m.w,
    if m.pix i j = white then 1 else 0

/-- `defect_percentage = defect_pixels_count / total_pixels if total_pixels > 0
else 0` with `total_pixels = crop_size * crop_size` (`crop.py` lines 69–70,
`process_allinone.py` line 94), over exact rationals in place of Python floats. -/
def defect_percentage (cropped_mask : Img) (crop_size : Nat) : ℚ :=
  if 0 < crop_size * crop_size then
    (defectCount cropped_mask : ℚ) / ((crop_size : ℚ) * (crop_size : ℚ))
  else 0

/-- The acceptance test `defect_percentage >= defect_threshold`
(`crop.py` line 74, `process_allinone.py` line 96). -/
def accept (ratio threshold : ℚ) : Bool :=
  threshold ≤ ratio

namespace Expand

/-- Vertical paste used by `expand.py` lines 40–44: a `newH × img.w` canvas
filled with the gray sentinel, with `img` written at rows
`[top, top + img.h)` (`expanded[padding_top : padding_top + h, :] = original`). -/
def padV (img : Img) (newH top : Nat) : Img :=
  { h := newH, w := img.w,
    pix := fun i j => if top ≤ i ∧ i < top + img.h then img.pix (i - top) j else gray }

/-- Horizontal paste used by `expand.py` lines 48–55: an `img.h × newW` canvas
filled with the gray sentinel, with `img` written at columns
`[left, left + img.w)`. -/
def padH (img : Img) (newW left : Nat) : Img :=
  { h := img.h, w := newW,
    pix := fun i j => if left ≤ j ∧ j < left + img.w then img.pix i (j - left) else gray }

/-- One loop iteration of `expand_image` in `expand.py` (lines 19–62), with the
file I/O dropped.  The target size `l` is hard-coded to `512` in the source
(line 26).  `lead` is the value drawn by `random.randint(0, padding)`; the
source computes `padding_h = l - h` with no clamp, so when the padded dimension
exceeds `l` the `randint` range `[0, l - h]` is empty and Python raises
`ValueError` — modelled by the `.error` branches.  The shape check is
`expand.py` lines 22–23. -/
def expand_image (original_image mask_image : Img) (lead : Nat) :
    Except String (Img × Img) :=
  if original_image.w ≠ mask_image.w ∨ original_image.h ≠ mask_image.h then
    .error "shape mismatch"
  else
    let h := original_image.h
    let w := original_image.w
    let l : Nat := 512
    if h < w then
      if l < h then .error "ValueError: empty randint range"
      else .ok (padV original_image l lead, padV mask_image l lead)
    else if w < h then
      if l < w then .error "ValueError: empty randint range"
      else .ok (padH original_image l lead, padH mask_image l lead)
    else
      .ok (original_image, mask_image)

end Expand

namespace Process

/-- Gray-filled `newH × newW` canvas with `img` pasted at offset `(top, left)`
(`process_allinone.py` lines 63–68:
`expanded[padding_top : padding_top + h, padding_left : padding_left + w] = original`). -/
def pad2 (img : Img) (newH newW top left : Nat) : Img :=
  { h := newH, w := newW,
    pix := fun i j =>
      if (top ≤ i ∧ i < top + img.h) ∧ (left ≤ j ∧ j < left + img.w) then
        img.pix (i - top) (j - left)
      else gray }

/-- Step 1 of `process_image_pair` in `process_allinone.py` (lines 54–70).
`padding_h = max(0, L - h)` and `padding_w = max(0, L - w)` are Nat truncated
subtractions here, which agree with Python's `max(0, L - dim)`.  When either
padding is positive, a `(h + padding_h) × (w + padding_w)` gray canvas is
built and BOTH the original and the mask are pasted at the same random offset
`(padding_top, padding_left)`; otherwise the pair passes through unchanged.
The random draws `padding_top ∈ [0, padding_h]`, `padding_left ∈ [0, padding_w]`
are passed explicitly. -/
def expansion_step (L : Nat) (original_image mask_image : Img)
    (padding_top padding_left : Nat) : Img × Img :=
  let h := original_image.h
  let w := original_image.w
  let padding_h := L - h
  let padding_w := L - w
  if 0 < padding_h ∨ 0 < padding_w then
    let new_height := h + padding_h
    let new_width := w + padding_w
    (pad2 original_image new_height new_width padding_top padding_left,
     pad2 mask_image new_height new_width padding_top padding_left)
  else
    (original_image, mask_image)

/-- Step 3 of `process_image_pair` (`process_allinone.py` lines 96–104): the
acceptance test and the save.  State is the global counter
`processed_image_count` and the list of written output files, each recorded as
(numeric name given by the incremented counter, original crop, mask crop).
On acceptance the counter is incremented first and both files are written under
that number; on rejection nothing happens. -/
def save_step (defect_threshold : ℚ) (processed_image_count : Nat)
    (written : List (Nat × Img × Img)) (cropped_original cropped_mask : Img)
    (crop_size : Nat) : Nat × List (Nat × Img × Img) :=
  if accept (defect_percentage cropped_mask crop_size) defect_threshold then
    (processed_image_count + 1,
     written ++ [(processed_image_count + 1, cropped_original, cropped_mask)])
  else
    (processed_image_count, written)

end Process

namespace Crop

/-- The random crop-origin draw of `crop.py` lines 54–55 (and
`process_allinone.py` lines 85–86): `start_x = random.randint(0, W - crop_size)`,
`start_y = random.randint(0, H - crop_size)`.  In the source these lines are
only reached when `max_x ≥ 0` and `max_y ≥ 0` (the `break` guard at
`crop.py` lines 50–52, the `continue` guard at `process_allinone.py`
lines 79–81), which holds whenever `crop_size ≤ min(H, W)`. -/
def draw_xy (rng : Nat → Nat → Nat) (W H crop_size : Nat) : Nat × Nat :=
  (rng 0 (W - crop_size), rng 0 (H - crop_size))

/-- One crop attempt of `crop.py` lines 54–60: draw one origin and slice BOTH
the original and the mask at it. -/
def crop_attempt (rng : Nat → Nat → Nat) (original_image mask_image : Img)
    (crop_size : Nat) : Img × Img :=
  let xy := draw_xy rng original_image.w original_image.h crop_size
  (cropAt original_image crop_size xy.1 xy.2,
   cropAt mask_image crop_size xy.1 xy.2)

/-- Outcome of `crop_image` (`crop.py` lines 21–99) for one pair, as seen by
the caller.  Every exception is caught inside `crop_image` itself
(lines 94–99), so the function returns normally in all cases. -/
inductive PairOutcome where
  | fileNotFound : PairOutcome
  | shapeMismatch : PairOutcome
  | processed : PairOutcome
  deriving DecidableEq, Repr

/-- The error-handling skeleton of `crop_image` (`crop.py` lines 21–99): an
unreadable original or mask raises `FileNotFoundError` (lines 26–29), a shape
difference raises `ValueError` (lines 35–36), and both are caught by the
`except` clauses at lines 94–97 and reported, never propagated.  File reads
are abstracted to the `Option Img` arguments (`none` = `cv2.imread` returned
`None`). -/
def crop_image (original : Option Img) (mask : Option Img) : PairOutcome :=
  match original with
  | none => .fileNotFound
  | some o =>
    match mask with
    | none => .fileNotFound
    | some m =>
      if o.w ≠ m.w ∨ o.h ≠ m.h then .shapeMismatch
      else .processed

/-- The driving loop of `batch_crop_images` (`crop.py` lines 121–141): each
paired file is handed to `crop_image` in turn; since `crop_image` never
raises, the loop always advances to the next pair. -/
def batch_crop_images : List (Option Img × Option Img) → List PairOutcome
  | [] => []
  | p :: rest => crop_image p.1 p.2 :: batch_crop_images rest

end Crop

namespace MaskLabel

/-- `np.any(np.all(img == [c, c, c], axis=2))`: whether some in-bounds pixel of
`img` equals the given colour. -/
def hasPixel (img : Img) (c : Pixel) : Bool :=
  (List.range img.h).any fun i =>
    (List.range img.w).any fun j => img.pix i j = c

/-- `extract_defect_mask` (`mask_and_label.py` lines 113–167) with the file
reads abstracted to `Img` arguments.  After the shape check (lines 150–155),
`defect_mask = np.all(label == [id, id, id], axis=2)`; if no pixel matches the
function returns `None` (lines 157–160); otherwise
`new_mask = np.zeros_like(mask); new_mask[defect_mask] = mask[defect_mask]`
(lines 161–164). -/
def extract_defect_mask (label_img mask_img : Img) (defect_id : Nat) :
    Option Img :=
  if label_img.h ≠ mask_img.h ∨ label_img.w ≠ mask_img.w then none
  else if hasPixel label_img (defect_id, defect_id, defect_id) then
    some { h := mask_img.h, w := mask_img.w,
           pix := fun i j =>
             if label_img.pix i j = (defect_id, defect_id, defect_id) then
               mask_img.pix i j
             else black }
  else none

/-- `convert_to_gray_white` (`mask_and_label.py` lines 170–183):
`output = mask.copy(); output[np.all(mask == [0,0,0], axis=2)] = [127,127,127]`. -/
def convert_to_gray_white (mask_img : Img) : Img :=
  { h := mask_img.h, w := mask_img.w,
    pix := fun i j => if mask_img.pix i j = black then gray else mask_img.pix i j }

end MaskLabel

/-- A constant-colour test image, used to instantiate theorems at concrete
inputs. -/
def constImg (hh ww : Nat) (c : Pixel) : Img :=
  { h := hh, w := ww, pix := fun _ _ => c }

/-! ## Helper lemmas -/

theorem hasPixel_iff (img : Img) (c : Pixel) :
    MaskLabel.hasPixel img c = true ↔
      ∃ i, i < img.h ∧ ∃ j, j < img.w ∧ img.pix i j = c := by
  simp [MaskLabel.hasPixel, List.any_eq_true, List.mem_range]

theorem defectCount_le (m : Img) : defectCount m ≤ m.h * m.w := by
  unfold defectCount
  calc
    (∑ i ∈ Finset.range m.h, ∑ j ∈ Finset.range m.w,
        if m.pix i j = white then 1 else 0)
        ≤ ∑ i ∈ Finset.range m.h, ∑ j ∈ Finset.range m.w, 1 := by
          refine Finset.sum_le_sum fun i _ => Finset.sum_le_sum fun j _ => ?_
          split <;> omega
    _ = m.h * m.w := by simp [Finset.sum_const, Finset.card_range]

theorem defectCount_all_white (m : Img)
    (hall : ∀ i j, i < m.h → j < m.w → m.pix i j = white) :
    defectCount m = m.h * m.w := by
  unfold defectCount
  have hrow : ∀ i ∈ Finset.range m.h,
      (∑ j ∈ Finset.range m.w, if m.pix i j = white then 1 else 0) = m.w := by
    intro i hi
    rw [Finset.sum_congr rfl fun j hj =>
      if_pos (hall i j (Finset.mem_range.1 hi) (Finset.mem_range.1 hj))]
    simp
  rw [Finset.sum_congr rfl hrow]
  simp [Finset.sum_const, Finset.card_range]

theorem defectCount_none_white (m : Img)
    (hnone : ∀ i j, i < m.h → j < m.w → m.pix i j ≠ white) :
    defectCount m = 0 := by
  unfold defectCount
  exact Finset.sum_eq_zero fun i hi => Finset.sum_eq_zero fun j hj =>
    if_neg (hnone i j (Finset.mem_range.1 hi) (Finset.mem_range.1 hj))

/-! ## Claim theorems -/

/-- C10: `convert_to_gray_white` preserves the dimensions, maps every pure-black
pixel to the gray sentinel, leaves every non-black pixel unchanged, produces a
grid with no pure-black pixel, and is idempotent. -/
theorem convert_spec (m : Img) :
    (MaskLabel.convert_to_gray_white m).h = m.h ∧
    (MaskLabel.convert_to_gray_white m).w = m.w ∧
    (∀ i j, m.pix i j = black → (MaskLabel.convert_to_gray_white m).pix i j = gray) ∧
    (∀ i j, m.pix i j ≠ black →
      (MaskLabel.convert_to_gray_white m).pix i j = m.pix i j) ∧
    (∀ i j, (MaskLabel.convert_to_gray_white m).pix i j ≠ black) ∧
    MaskLabel.convert_to_gray_white (MaskLabel.convert_to_gray_white m) =
      MaskLabel.convert_to_gray_white m := by
  refine ⟨rfl, rfl, ?_, ?_, ?_, ?_⟩
  · intro i j hb
    simp [MaskLabel.convert_to_gray_white, hb]
  · intro i j hb
    simp [MaskLabel.convert_to_gray_white, hb]
  · intro i j
    simp only [MaskLabel.convert_to_gray_white]
    split
    · decide
    · assumption
  · refine Img.ext rfl rfl ?_
    funext i j
    simp only [MaskLabel.convert_to_gray_white]
    by_cases hb : m.pix i j = black
    · simp [hb, gray, black]
    · simp [hb]

/-- C10 witness: on a concrete all-black image the (0,0) pixel becomes gray. -/
theorem convert_spec_witness :
    (MaskLabel.convert_to_gray_white (constImg 2 2 black)).pix 0 0 = gray :=
  (convert_spec (constImg 2 2 black)).2.2.1 0 0 rfl

/-- C4: the acceptance test returns true exactly when the defect ratio is at
least the threshold, and for a fixed sequence of candidate ratios every
candidate accepted at a threshold t2 is also accepted at any threshold
t1 ≤ t2. -/
theorem accept_iff_and_monotone :
    (∀ ratio threshold : ℚ, accept ratio threshold = true ↔ threshold ≤ ratio) ∧
    (∀ t1 t2 : ℚ, t1 ≤ t2 → ∀ rs : List ℚ,
      ∀ r ∈ rs.filter (fun r => accept r t2), r ∈ rs.filter (fun r => accept r t1)) := by
  constructor
  · intro ratio threshold
    simp [accept]
  · intro t1 t2 h12 rs r hr
    rw [List.mem_filter] at hr ⊢
    refine ⟨hr.1, ?_⟩
    have h2 : t2 ≤ r := by simpa [accept] using hr.2
    simpa [accept] using le_trans h12 h2

/-- C4 witness: the ratio 1/2, accepted at threshold 1/4, is also accepted at
the lower threshold 0. -/
theorem accept_iff_and_monotone_witness :
    (1 : ℚ)/2 ∈ ([(1 : ℚ)/2].filter (fun r => accept r 0)) :=
  accept_iff_and_monotone.2 0 ((1 : ℚ)/4) (by norm_num) [(1 : ℚ)/2] ((1 : ℚ)/2)
    (by rw [List.mem_filter]
        refine ⟨by simp, ?_⟩
        simp only [accept, decide_eq_true_eq]
        norm_num)

/-- C8: a rejected candidate (defect ratio strictly below the threshold) leaves
the global output counter and the list of written files unchanged: no file is
written and no output name is consumed. -/
theorem rejection_writes_nothing (t : ℚ) (c : Nat)
    (written : List (Nat × Img × Img)) (co cm : Img) (cs : Nat)
    (hrej : defect_percentage cm cs < t) :
    Process.save_step t c written co cm cs = (c, written) := by
  have hna : ¬ (t ≤ defect_percentage cm cs) := not_le.mpr hrej
  simp [Process.save_step, accept, hna]

/-- C8 witness: an all-gray 2×2 mask crop has defect ratio exactly 0, which is
below the threshold 0.0002 = 1/5000, so the save step writes nothing and the
counter stays at 7. -/
theorem rejection_writes_nothing_witness :
    defect_percentage (constImg 2 2 gray) 2 = 0 ∧
    Process.save_step (1/5000) 7 [] (constImg 2 2 white) (constImg 2 2 gray) 2 =
      (7, []) := by
  have h0 : defectCount (constImg 2 2 gray) = 0 :=
    defectCount_none_white _ fun i j _ _ => by simp [constImg, gray, white]
  have hp : defect_percentage (constImg 2 2 gray) 2 = 0 := by
    simp [defect_percentage, h0]
  refine ⟨hp, ?_⟩
  exact rejection_writes_nothing (1/5000) 7 [] (constImg 2 2 white) (constImg 2 2 gray) 2
    (by rw [hp]; norm_num)

/-- C9: for label and mask grids of identical shape, `extract_defect_mask`
returns `none` exactly when no in-bounds label pixel equals
(defect_id, defect_id, defect_id); otherwise the returned grid keeps the mask's
pixel wherever the label matches and is pure black elsewhere, and
`convert_to_gray_white` then remaps exactly the pure-black pixels of that grid
to the gray sentinel. -/
theorem extract_defect_mask_spec (label_img mask_img : Img) (defect_id : Nat)
    (hh : label_img.h = mask_img.h) (hw : label_img.w = mask_img.w) :
    (MaskLabel.extract_defect_mask label_img mask_img defect_id = none ↔
      ∀ i j, i < label_img.h → j < label_img.w →
        label_img.pix i j ≠ (defect_id, defect_id, defect_id)) ∧
    (∀ r, MaskLabel.extract_defect_mask label_img mask_img defect_id = some r →
      r.h = mask_img.h ∧ r.w = mask_img.w ∧
      (∀ i j, r.pix i j =
        if label_img.pix i j = (defect_id, defect_id, defect_id) then
          mask_img.pix i j
        else black) ∧
      (∀ i j, (MaskLabel.convert_to_gray_white r).pix i j =
        if r.pix i j = black then gray else r.pix i j)) := by
  have hcond : ¬ (label_img.h ≠ mask_img.h ∨ label_img.w ≠ mask_img.w) := by
    push_neg
    exact ⟨hh, hw⟩
  by_cases hP :
      MaskLabel.hasPixel label_img (defect_id, defect_id, defect_id) = true
  · obtain ⟨i0, hi0, j0, hj0, hij0⟩ := (hasPixel_iff _ _).1 hP
    have hx : MaskLabel.extract_defect_mask label_img mask_img defect_id =
        some { h := mask_img.h, w := mask_img.w,
               pix := fun i j =>
                 if label_img.pix i j = (defect_id, defect_id, defect_id) then
                   mask_img.pix i j
                 else black } := by
      simp only [MaskLabel.extract_defect_mask, hcond, if_false, hP, if_true]
    refine ⟨?_, ?_⟩
    · rw [hx]
      constructor
      · intro h0
        exact absurd h0 (by simp)
      · intro hall
        exact absurd hij0 (hall i0 j0 hi0 hj0)
    · intro r hr
      rw [hx, Option.some.injEq] at hr
      subst hr
      exact ⟨rfl, rfl, fun i j => rfl, fun i j => rfl⟩
  · have hPf : MaskLabel.hasPixel label_img (defect_id, defect_id, defect_id) = false := by
      simpa using hP
    have hx : MaskLabel.extract_defect_mask label_img mask_img defect_id = none := by
      simp only [MaskLabel.extract_defect_mask, hcond, if_false, hPf]
      simp
    refine ⟨?_, ?_⟩
    · rw [hx]
      refine ⟨fun _ i j hi hj hcontra => ?_, fun _ => rfl⟩
      exact hP ((hasPixel_iff _ _).2 ⟨i, hi, j, hj, hcontra⟩)
    · intro r hr
      rw [hx] at hr
      exact Option.noConfusion hr

/-- C9 witness: a 1×1 label whose pixel is (5,5,5) contains no (3,3,3) pixel,
and the extraction with defect id 3 on it indeed returns none. -/
theorem extract_defect_mask_spec_witness :
    MaskLabel.extract_defect_mask (constImg 1 1 (5, 5, 5)) (constImg 1 1 (255, 255, 255)) 3 =
      none :=
  ((extract_defect_mask_spec (constImg 1 1 (5, 5, 5)) (constImg 1 1 (255, 255, 255)) 3
      rfl rfl).1).2
    (fun i j _ _ => by simp [constImg])

/-- C7: an unreadable original or mask, or a shape mismatch, is a per-pair
outcome of `crop_image` (every exception is caught inside it), and the batch
loop turns each pair into exactly one outcome independently of the others: a
failing pair never aborts the rest of the batch. -/
theorem per_pair_failure_policy :
    (∀ mo : Option Img, Crop.crop_image none mo = .fileNotFound) ∧
    (∀ o : Img, Crop.crop_image (some o) none = .fileNotFound) ∧
    (∀ o m : Img, (o.w ≠ m.w ∨ o.h ≠ m.h) →
      Crop.crop_image (some o) (some m) = .shapeMismatch) ∧
    (∀ pre post : List (Option Img × Option Img), ∀ p : Option Img × Option Img,
      Crop.batch_crop_images (pre ++ p :: post) =
        Crop.batch_crop_images pre ++
          Crop.crop_image p.1 p.2 :: Crop.batch_crop_images post) ∧
    (∀ pairs : List (Option Img × Option Img),
      (Crop.batch_crop_images pairs).length = pairs.length) := by
  refine ⟨fun mo => rfl, fun o => rfl, ?_, ?_, ?_⟩
  · intro o m hne
    show (if o.w ≠ m.w ∨ o.h ≠ m.h then Crop.PairOutcome.shapeMismatch
          else Crop.PairOutcome.processed) = Crop.PairOutcome.shapeMismatch
    exact if_pos hne
  · intro pre post p
    induction pre with
    | nil => rfl
    | cons q rest ih =>
      simp only [List.cons_append, Crop.batch_crop_images, List.append_eq, ih]
  · intro pairs
    induction pairs with
    | nil => rfl
    | cons q rest ih =>
      simp only [Crop.batch_crop_images, List.length_cons, ih]

/-- C7 witness: a concrete pair whose original is 1×2 while the mask is 1×3 is
classified as a shape mismatch (and skipped), not an abort. -/
theorem per_pair_failure_policy_witness :
    Crop.crop_image (some (constImg 1 2 black)) (some (constImg 1 3 black)) =
      Crop.PairOutcome.shapeMismatch :=
  per_pair_failure_policy.2.2.1 (constImg 1 2 black) (constImg 1 3 black)
    (Or.inl (by simp [constImg]))

/-- C2: for any image of height H and width W and any crop_size ≤ min(H, W),
the crop origin drawn by the cropper satisfies x ≤ W − crop_size and
y ≤ H − crop_size (both are naturals, hence ≥ 0), so the crop_size × crop_size
window lies fully inside the image: x + crop_size ≤ W, y + crop_size ≤ H, and
every pixel read (y + i, x + j) with i, j < crop_size is in bounds. -/
theorem crop_candidate_in_bounds (rng : Nat → Nat → Nat) (img : Img)
    (crop_size : Nat) (hrng : RngValid rng)
    (hcs : crop_size ≤ min img.h img.w) :
    (Crop.draw_xy rng img.w img.h crop_size).1 ≤ img.w - crop_size ∧
    (Crop.draw_xy rng img.w img.h crop_size).2 ≤ img.h - crop_size ∧
    (Crop.draw_xy rng img.w img.h crop_size).1 + crop_size ≤ img.w ∧
    (Crop.draw_xy rng img.w img.h crop_size).2 + crop_size ≤ img.h ∧
    (∀ i j, i < crop_size → j < crop_size →
      (Crop.draw_xy rng img.w img.h crop_size).2 + i < img.h ∧
      (Crop.draw_xy rng img.w img.h crop_size).1 + j < img.w) := by
  have hw : crop_size ≤ img.w := le_trans hcs (min_le_right _ _)
  have hh : crop_size ≤ img.h := le_trans hcs (min_le_left _ _)
  have hx := (hrng 0 (img.w - crop_size) (Nat.zero_le _)).2
  have hy := (hrng 0 (img.h - crop_size) (Nat.zero_le _)).2
  simp only [Crop.draw_xy]
  refine ⟨hx, hy, by omega, by omega, fun i j hi hj => ⟨by omega, by omega⟩⟩

/-- C2 witness: with the generator that always draws the low end of the range,
a crop of side 1 from a 2×3 image starts at column 0 ≤ 3 − 1. -/
theorem crop_candidate_in_bounds_witness :
    (Crop.draw_xy (fun lo _ => lo) (constImg 2 3 black).w (constImg 2 3 black).h 1).1 ≤
      (constImg 2 3 black).w - 1 :=
  (crop_candidate_in_bounds (fun lo _ => lo) (constImg 2 3 black) 1
    (fun lo hi hle => ⟨Nat.le_refl lo, hle⟩) (by simp [constImg])).1

/-- C3: for any crop candidate of positive side crop_size, the defect ratio of
the mask crop lies in [0, 1]; it is exactly 1 when every pixel of the mask
crop is the white sentinel and exactly 0 when none is. -/
theorem defect_ratio_in_unit_interval (m : Img) (cs x y : Nat) (hcs : 0 < cs) :
    0 ≤ defect_percentage (cropAt m cs x y) cs ∧
    defect_percentage (cropAt m cs x y) cs ≤ 1 ∧
    ((∀ i j, i < cs → j < cs → (cropAt m cs x y).pix i j = white) →
      defect_percentage (cropAt m cs x y) cs = 1) ∧
    ((∀ i j, i < cs → j < cs → (cropAt m cs x y).pix i j ≠ white) →
      defect_percentage (cropAt m cs x y) cs = 0) := by
  have hch : (cropAt m cs x y).h = cs := rfl
  have hcw : (cropAt m cs x y).w = cs := rfl
  have hpos : 0 < cs * cs := Nat.mul_pos hcs hcs
  have hq : (0 : ℚ) < (cs : ℚ) * (cs : ℚ) := by
    have : (0 : ℚ) < (cs : ℚ) := by exact_mod_cast hcs
    positivity
  have hper : defect_percentage (cropAt m cs x y) cs =
      (defectCount (cropAt m cs x y) : ℚ) / ((cs : ℚ) * (cs : ℚ)) := by
    simp [defect_percentage, hpos]
  refine ⟨?_, ?_, ?_, ?_⟩
  · rw [hper]
    positivity
  · rw [hper, div_le_one hq]
    have hle := defectCount_le (cropAt m cs x y)
    rw [hch, hcw] at hle
    exact_mod_cast hle
  · intro hall
    have hcnt := defectCount_all_white (cropAt m cs x y) hall
    rw [hch, hcw] at hcnt
    rw [hper, hcnt]
    push_cast
    exact div_self (ne_of_gt hq)
  · intro hnone
    have hcnt := defectCount_none_white (cropAt m cs x y) hnone
    rw [hper, hcnt]
    simp

/-- C3 witness: a 1×1 crop of an all-white mask has defect ratio exactly 1. -/
theorem defect_ratio_in_unit_interval_witness :
    defect_percentage (cropAt (constImg 2 2 white) 1 0 0) 1 = 1 :=
  (defect_ratio_in_unit_interval (constImg 2 2 white) 1 0 0 (by omega)).2.2.1
    fun i j _ _ => rfl

/-- C1 counterexample: for a 600×700 pair (h < w) the source's target size 512
is smaller than both dimensions, yet `expand_image` does not pass the pair
through unchanged — `padding_h = 512 - 600` is negative and unclamped, so
`random.randint(0, padding_h)` raises `ValueError` and the call fails. -/
theorem expand_target_smaller_fails :
    Expand.expand_image (constImg 600 700 black) (constImg 600 700 black) 0 =
      Except.error "ValueError: empty randint range" := rfl

/-- C1 (amended): in `expand.py` (target fixed at 512), when h < w and
h ≤ 512 the call pads only the height axis by 512 − h: for every lead in
[0, padding] the canvas has height h + padding, unchanged width, the original
pasted at row offset lead, gray rows elsewhere, and padding − lead trailing
rows (symmetrically when w < h); but when 512 < h the padding amount is the
unclamped 512 − h < 0 and the call raises instead of passing through.  In
`process_allinone.py` the amounts ARE clamped to max(0, L − dim): when L is at
most both dimensions the pair passes through unchanged without failing, but
when the width is also below L the width axis is padded as well, so the width
does not stay unchanged there. -/
theorem expand_padding_spec :
    (∀ o m : Img, ∀ lead : Nat, o.w = m.w → o.h = m.h → o.h < o.w →
      o.h ≤ 512 → lead ≤ 512 - o.h →
      Expand.expand_image o m lead =
        Except.ok (Expand.padV o 512 lead, Expand.padV m 512 lead) ∧
      (Expand.padV o 512 lead).h = o.h + (512 - o.h) ∧
      (Expand.padV o 512 lead).w = o.w ∧
      (∀ i j : Nat, lead ≤ i → i < lead + o.h →
        (Expand.padV o 512 lead).pix i j = o.pix (i - lead) j ∧
        (Expand.padV m 512 lead).pix i j = m.pix (i - lead) j) ∧
      (∀ i j : Nat, i < lead ∨ lead + o.h ≤ i →
        (Expand.padV o 512 lead).pix i j = gray ∧
        (Expand.padV m 512 lead).pix i j = gray) ∧
      512 - (lead + o.h) = (512 - o.h) - lead) ∧
    (∀ o m : Img, ∀ lead : Nat, o.w = m.w → o.h = m.h → o.w < o.h →
      o.w ≤ 512 →
      Expand.expand_image o m lead =
        Except.ok (Expand.padH o 512 lead, Expand.padH m 512 lead) ∧
      (Expand.padH o 512 lead).h = o.h ∧
      (Expand.padH o 512 lead).w = o.w + (512 - o.w)) ∧
    (∀ o m : Img, ∀ lead : Nat, o.w = m.w → o.h = m.h → o.h < o.w →
      512 < o.h →
      Expand.expand_image o m lead =
        Except.error "ValueError: empty randint range") ∧
    (∀ L : Nat, ∀ o m : Img, ∀ top left : Nat, L ≤ o.h → L ≤ o.w →
      Process.expansion_step L o m top left = (o, m)) ∧
    (∀ L : Nat, ∀ o m : Img, ∀ top left : Nat, o.h < o.w → o.w < L →
      (Process.expansion_step L o m top left).1.w = o.w + (L - o.w) ∧
      o.w < (Process.expansion_step L o m top left).1.w) := by
  refine ⟨?_, ?_, ?_, ?_, ?_⟩
  · intro o m lead hw hh hlt hle hlead
    have hcond : ¬ (o.w ≠ m.w ∨ o.h ≠ m.h) := by
      push_neg
      exact ⟨hw, hh⟩
    have h512 : ¬ (512 < o.h) := Nat.not_lt.mpr hle
    refine ⟨?_, ?_, ?_, ?_, ?_, by omega⟩
    · simp [Expand.expand_image, hcond, hlt, h512]
    · simp only [Expand.padV]
      omega
    · simp [Expand.padV]
    · intro i j h1 h2
      constructor
      · simp only [Expand.padV]
        rw [if_pos ⟨h1, h2⟩]
      · simp only [Expand.padV]
        rw [if_pos ⟨h1, by omega⟩]
    · intro i j hout
      constructor
      · simp only [Expand.padV]
        rw [if_neg (by omega)]
      · simp only [Expand.padV]
        rw [if_neg (by omega)]
  · intro o m lead hw hh hlt hle
    have hcond : ¬ (o.w ≠ m.w ∨ o.h ≠ m.h) := by
      push_neg
      exact ⟨hw, hh⟩
    have h512 : ¬ (512 < o.w) := Nat.not_lt.mpr hle
    have hnlt : ¬ (o.h < o.w) := lt_asymm hlt
    refine ⟨?_, ?_, ?_⟩
    · simp [Expand.expand_image, hcond, hnlt, hlt, h512]
    · simp [Expand.padH]
    · simp only [Expand.padH]
      omega
  · intro o m lead hw hh hlt hgt
    have hcond : ¬ (o.w ≠ m.w ∨ o.h ≠ m.h) := by
      push_neg
      exact ⟨hw, hh⟩
    simp [Expand.expand_image, hcond, hlt, hgt]
  · intro L o m top left hLh hLw
    have h1 : L - o.h = 0 := Nat.sub_eq_zero_of_le hLh
    have h2 : L - o.w = 0 := Nat.sub_eq_zero_of_le hLw
    simp [Process.expansion_step, h1, h2]
  · intro L o m top left hlt hwL
    have hpw : 0 < L - o.w := Nat.sub_pos_of_lt hwL
    have h1 : (Process.expansion_step L o m top left).1.w = o.w + (L - o.w) := by
      simp [Process.expansion_step, hpw, Process.pad2]
    refine ⟨h1, ?_⟩
    rw [h1]
    omega

/-- C1 witness: a concrete 1×2 pair with lead 0 satisfies the height-branch
hypotheses, and the call indeed pads only the height axis to 512. -/
theorem expand_padding_spec_witness :
    Expand.expand_image (constImg 1 2 black) (constImg 1 2 black) 0 =
      Except.ok (Expand.padV (constImg 1 2 black) 512 0,
                 Expand.padV (constImg 1 2 black) 512 0) :=
  (expand_padding_spec.1 (constImg 1 2 black) (constImg 1 2 black) 0 rfl rfl
    (by decide) (by decide) (by decide)).1

/-- C6 counterexample: a square 100×100 pair with `process_allinone.py`'s
expansion step at the default target 512 is NOT passed through unchanged — the
step pads both axes, producing a 512-high canvas — so expand is not a no-op on
every square input. -/
theorem square_input_padded :
    (Process.expansion_step 512 (constImg 100 100 black)
        (constImg 100 100 black) 0 0).1.h = 512 ∧
    (constImg 100 100 black).h = 100 ∧
    (Process.expansion_step 512 (constImg 100 100 black)
        (constImg 100 100 black) 0 0).1.h ≠ (constImg 100 100 black).h := by
  decide

/-- C6 (amended): in `expand.py` every square input (with a shape-matching
mask) passes through unchanged; in `process_allinone.py` the pair passes
through unchanged when both dimensions are at least the target size, but a
square input strictly smaller than the target is padded on both axes to a
target × target canvas. -/
theorem square_passthrough_spec :
    (∀ o m : Img, ∀ lead : Nat, o.w = m.w → o.h = m.h → o.h = o.w →
      Expand.expand_image o m lead = Except.ok (o, m)) ∧
    (∀ L : Nat, ∀ o m : Img, ∀ top left : Nat, L ≤ o.h → L ≤ o.w →
      Process.expansion_step L o m top left = (o, m)) ∧
    (∀ L : Nat, ∀ o m : Img, ∀ top left : Nat, o.h = o.w → o.h < L →
      (Process.expansion_step L o m top left).1.h = L ∧
      (Process.expansion_step L o m top left).1.w = L ∧
      (Process.expansion_step L o m top left).2.h = L ∧
      (Process.expansion_step L o m top left).2.w = L) := by
  refine ⟨?_, ?_, ?_⟩
  · intro o m lead hw hh hsq
    have hcond : ¬ (o.w ≠ m.w ∨ o.h ≠ m.h) := by
      push_neg
      exact ⟨hw, hh⟩
    have h2 : o.w = m.h := by omega
    have h3 : m.w = m.h := by omega
    simp [Expand.expand_image, hcond, hsq, hw, h2, h3]
  · intro L o m top left hLh hLw
    have h1 : L - o.h = 0 := Nat.sub_eq_zero_of_le hLh
    have h2 : L - o.w = 0 := Nat.sub_eq_zero_of_le hLw
    simp [Process.expansion_step, h1, h2]
  · intro L o m top left hsq hlt
    have hph : 0 < L - o.h := Nat.sub_pos_of_lt hlt
    refine ⟨?_, ?_, ?_, ?_⟩ <;>
      simp [Process.expansion_step, hph, Process.pad2] <;> omega

/-- C5: whenever the expansion succeeds, the expanded original and expanded
mask have identical canvas dimensions and there is a single offset
(top, left) such that BOTH carry their source's pixels at that offset and the
gray sentinel everywhere else in bounds; and each crop attempt slices the
original and the mask at one shared origin (x, y), so the pair stays
positionally aligned through the expand-crop pipeline. -/
theorem pipeline_alignment (o m : Img) (lead : Nat) (eo em : Img)
    (hok : Expand.expand_image o m lead = Except.ok (eo, em)) :
    (eo.h = em.h ∧ eo.w = em.w) ∧
    (∃ top left : Nat,
      (∀ i j : Nat, top ≤ i → i < top + o.h → left ≤ j → j < left + o.w →
        eo.pix i j = o.pix (i - top) (j - left) ∧
        em.pix i j = m.pix (i - top) (j - left)) ∧
      (∀ i j : Nat, i < eo.h → j < eo.w →
        ¬(top ≤ i ∧ i < top + o.h ∧ left ≤ j ∧ j < left + o.w) →
        eo.pix i j = gray ∧ em.pix i j = gray)) ∧
    (∀ rng : Nat → Nat → Nat, ∀ cs : Nat, ∃ x y : Nat,
      Crop.crop_attempt rng eo em cs = (cropAt eo cs x y, cropAt em cs x y) ∧
      ∀ i j : Nat,
        (cropAt eo cs x y).pix i j = eo.pix (y + i) (x + j) ∧
        (cropAt em cs x y).pix i j = em.pix (y + i) (x + j)) := by
  unfold Expand.expand_image at hok
  split at hok
  · exact Except.noConfusion hok
  · rename_i hshape
    push_neg at hshape
    obtain ⟨hw, hh⟩ := hshape
    dsimp only at hok
    split at hok
    · rename_i hlt
      split at hok
      · exact Except.noConfusion hok
      · rename_i h512
        rw [Except.ok.injEq, Prod.mk.injEq] at hok
        obtain ⟨heo, hem⟩ := hok
        subst heo
        subst hem
        refine ⟨⟨rfl, hw⟩, ⟨lead, 0, ?_, ?_⟩, ?_⟩
        · intro i j h1 h2 h3 h4
          constructor
          · simp only [Expand.padV]
            rw [if_pos ⟨h1, h2⟩]
            simp
          · simp only [Expand.padV]
            rw [if_pos ⟨h1, by omega⟩]
            simp
        · intro i j hi hj hnot
          have hj2 : j < o.w := hj
          constructor
          · simp only [Expand.padV]
            rw [if_neg (by omega)]
          · simp only [Expand.padV]
            rw [if_neg (by omega)]
        · intro rng cs
          exact ⟨rng 0 ((Expand.padV o 512 lead).w - cs),
                 rng 0 ((Expand.padV o 512 lead).h - cs), rfl,
                 fun i j => ⟨rfl, rfl⟩⟩
    · rename_i hnlt
      split at hok
      · rename_i hlt
        split at hok
        · exact Except.noConfusion hok
        · rename_i h512
          rw [Except.ok.injEq, Prod.mk.injEq] at hok
          obtain ⟨heo, hem⟩ := hok
          subst heo
          subst hem
          refine ⟨⟨hh, rfl⟩, ⟨0, lead, ?_, ?_⟩, ?_⟩
          · intro i j h1 h2 h3 h4
            constructor
            · simp only [Expand.padH]
              rw [if_pos ⟨h3, h4⟩]
              simp
            · simp only [Expand.padH]
              rw [if_pos ⟨h3, by omega⟩]
              simp
          · intro i j hi hj hnot
            have hi2 : i < o.h := hi
            constructor
            · simp only [Expand.padH]
              rw [if_neg (by omega)]
            · simp only [Expand.padH]
              rw [if_neg (by omega)]
          · intro rng cs
            exact ⟨rng 0 ((Expand.padH o 512 lead).w - cs),
                   rng 0 ((Expand.padH o 512 lead).h - cs), rfl,
                   fun i j => ⟨rfl, rfl⟩⟩
      · rw [Except.ok.injEq, Prod.mk.injEq] at hok
        obtain ⟨heo, hem⟩ := hok
        subst heo
        subst hem
        refine ⟨⟨hh, hw⟩, ⟨0, 0, ?_, ?_⟩, ?_⟩
        · intro i j h1 h2 h3 h4
          simp
        · intro i j hi hj hnot
          exact absurd ⟨Nat.zero_le _, by omega, Nat.zero_le _, by omega⟩ hnot
        · intro rng cs
          exact ⟨rng 0 (o.w - cs), rng 0 (o.h - cs), rfl, fun i j => ⟨rfl, rfl⟩⟩

/-- C5 witness: a concrete successful expansion of a 1×2 pair, at which the
alignment theorem applies; the two expanded canvases share their dimensions. -/
theorem pipeline_alignment_witness :
    (Expand.padV (constImg 1 2 black) 512 0).h =
      (Expand.padV (constImg 1 2 black) 512 0).h ∧
    (Expand.padV (constImg 1 2 black) 512 0).w =
      (Expand.padV (constImg 1 2 black) 512 0).w :=
  (pipeline_alignment (constImg 1 2 black) (constImg 1 2 black) 0
    (Expand.padV (constImg 1 2 black) 512 0)
    (Expand.padV (constImg 1 2 black) 512 0) rfl).1

/-- C6 witness: a concrete 4×4 square pair passes through `expand.py`'s
expansion unchanged. -/
theorem square_passthrough_spec_witness :
    Expand.expand_image (constImg 4 4 black) (constImg 4 4 black) 0 =
      Except.ok (constImg 4 4 black, constImg 4 4 black) :=
  square_passthrough_spec.1 (constImg 4 4 black) (constImg 4 4 black) 0 rfl rfl rfl
